import Mathlib

/-!
Verification of the Teuchos condition / dependency-converter subsystem of
Trilinos, shallowly embedded from
src/packages/teuchos/src/Teuchos_StandardConditions.hpp and the
DependencyXMLConverter translation unit.  Member functions whose bodies are
only declared in the header (their translation unit is absent) are modelled
from the specification and marked as such in their doc comments.
-/

namespace Trilinos

/-- Declared dynamic type of a ParameterEntry value (the closed set of value
types the spec lists for the external parameter-tree collaborator). -/
inductive PType where
  | tInt
  | tShort
  | tDouble
  | tFloat
  | tBool
  | tString
deriving DecidableEq, Repr

/-- A dynamically-typed parameter value.  C++ double and float are embedded
as rationals; int and short as integers. -/
inductive PValue where
  | vInt (n : Int)
  | vShort (n : Int)
  | vDouble (q : ℚ)
  | vFloat (q : ℚ)
  | vBool (b : Bool)
  | vString (s : String)
deriving DecidableEq

/-- Dynamic type tag of a value. -/
def PValue.ptype : PValue → PType
  | .vInt _ => .tInt
  | .vShort _ => .tShort
  | .vDouble _ => .tDouble
  | .vFloat _ => .tFloat
  | .vBool _ => .tBool
  | .vString _ => .tString

/-- A ParameterEntry reference: stable identity plus the declared type of the
entry (the spec fixes parameter type and identity at construction). -/
structure ParameterEntry where
  id : String
  ptype : PType
deriving DecidableEq, Repr

/-- The current state of the parameter tree: the value held at each id. -/
def PState : Type := String → PValue

/-- isType of ParameterEntry, on the declared type. -/
def ParameterEntry.isType (p : ParameterEntry) (t : PType) : Bool :=
  p.ptype == t

/-- The template argument T of NumberCondition: one of the supported number
types. -/
inductive NumT where
  | nInt
  | nShort
  | nDouble
  | nFloat
deriving DecidableEq, Repr

/-- Carrier type of each supported number type. -/
@[reducible]
def NumT.carrier : NumT → Type
  | .nInt => Int
  | .nShort => Int
  | .nDouble => ℚ
  | .nFloat => ℚ

/-- TypeNameTraits name used in getTypeAttributeValue of NumberCondition. -/
def NumT.typeName : NumT → String
  | .nInt => "int"
  | .nShort => "short"
  | .nDouble => "double"
  | .nFloat => "float"

/-- getValue of T on a parameter value: succeeds exactly when the value
dynamically holds type T (models the any cast of the external
ParameterEntry collaborator, which is exact on the stored type). -/
def getValueNum : (T : NumT) → PValue → Option T.carrier
  | .nInt, .vInt n => some n
  | .nShort, .vShort n => some n
  | .nDouble, .vDouble q => some q
  | .nFloat, .vFloat q => some q
  | _, _ => none

/-- Strictly-greater-than-zero test on each number carrier. -/
def NumT.gtZero : (T : NumT) → T.carrier → Bool
  | .nInt => fun x : Int => decide (0 < x)
  | .nShort => fun x : Int => decide (0 < x)
  | .nDouble => fun x : ℚ => decide (0 < x)
  | .nFloat => fun x : ℚ => decide (0 < x)

/-- NumberCondition runFunction (Teuchos_StandardConditions.hpp lines
628-633): apply the stored function pointer when non-null, else identity. -/
def runFunction {T : NumT} (func : Option (T.carrier → T.carrier))
    (argument : T.carrier) : T.carrier :=
  match func with
  | some f => f argument
  | none => argument

/-- The condition tree, a closed tagged variant of the Condition class
hierarchy of Teuchos_StandardConditions.hpp. -/
inductive Condition where
  | orCond (conditions : List Condition)
  | andCond (conditions : List Condition)
  | equalsCond (conditions : List Condition)
  | notCond (childCondition : Condition)
  | stringCond (parameterEntry : ParameterEntry) (values : List String)
      (whenParamEqualsValue : Bool)
  | numberCond (T : NumT) (parameterEntry : ParameterEntry)
      (func : Option (T.carrier → T.carrier)) (whenParamEqualsValue : Bool)
  | boolCond (parameterEntry : ParameterEntry) (whenParamEqualsValue : Bool)

/-- getTypeAttributeValue of each concrete variant, from the inline bodies in
Teuchos_StandardConditions.hpp. -/
def Condition.getTypeAttributeValue : Condition → String
  | .orCond _ => "orCondition"
  | .andCond _ => "andCondition"
  | .equalsCond _ => "equalsCondition"
  | .notCond _ => "notCondition"
  | .stringCond _ _ _ => "stringCondition"
  | .numberCond T _ _ _ => T.typeName ++ "NumberCondition"
  | .boolCond _ _ => "boolCondition"

/-- OrCondition applyOperator.  Modelled from the spec: the translation unit
defining it is absent; the spec states applyOperator for Or is op1 or op2. -/
def OrCondition.applyOperator (op1 op2 : Bool) : Bool :=
  op1 || op2

/-- AndCondition applyOperator.  Modelled from the spec: the translation unit
defining it is absent; the spec states applyOperator for And is op1 and
op2. -/
def AndCondition.applyOperator (op1 op2 : Bool) : Bool :=
  op1 && op2

/-- EqualsCondition applyOperator.  Modelled from the spec: the translation
unit defining it is absent; the spec states applyOperator for Equals is
op1 == op2. -/
def EqualsCondition.applyOperator (op1 op2 : Bool) : Bool :=
  op1 == op2

/-- ParameterCondition isConditionTrue as a function of the stored polarity
flag and the result of the virtual evaluateParameter call, embedding the
inline body at Teuchos_StandardConditions.hpp lines 407-417 verbatim. -/
def ParameterCondition.isConditionTrueOf
    (whenParamEqualsValue evalResult : Bool) : Bool :=
  if (whenParamEqualsValue && evalResult)
      || (!whenParamEqualsValue && evalResult) then
    true
  else
    false

/-- StringCondition evaluateParameter.  Modelled from the spec: the
translation unit defining it is absent; the spec states it is true iff the
current string value of the referenced parameter is a member of the
configured value list (exact, case-sensitive match); reading the value
fails if the parameter does not currently hold a string. -/
def StringCondition.evaluateParameter (σ : PState) (p : ParameterEntry)
    (values : List String) : Option Bool :=
  match σ p.id with
  | .vString s => some (values.contains s)
  | _ => none

/-- BoolCondition evaluateParameter.  Modelled from the spec: the translation
unit defining it is absent; the spec states it returns the current boolean
value of the parameter directly; reading the value fails if the parameter
does not currently hold a bool. -/
def BoolCondition.evaluateParameter (σ : PState) (p : ParameterEntry) :
    Option Bool :=
  match σ p.id with
  | .vBool b => some b
  | _ => none

/-- NumberCondition evaluateParameter (Teuchos_StandardConditions.hpp lines
608-610): runFunction (getValue of T of the parameter) > 0.  The getValue
call on the external collaborator is modelled by getValueNum and fails when
the stored dynamic type is not T. -/
def NumberCondition.evaluateParameter (σ : PState) (T : NumT)
    (p : ParameterEntry) (func : Option (T.carrier → T.carrier)) :
    Option Bool :=
  (getValueNum T (σ p.id)).map (fun v => T.gtZero (runFunction func v))

mutual

/-- isConditionTrue over the condition tree.  The bodies for
BinaryLogicalCondition and NotCondition are modelled from the spec (their
translation unit is absent): the logical variants reduce the ordered child
list left to right starting from the first child, NotCondition negates its
child.  The ParameterCondition variants apply the inline isConditionTrue
body (lines 407-417) to the variant evaluateParameter result; a failure of
evaluateParameter propagates. -/
def Condition.isConditionTrue (σ : PState) : Condition → Option Bool
  | .orCond cs => Condition.evalFirst σ OrCondition.applyOperator cs
  | .andCond cs => Condition.evalFirst σ AndCondition.applyOperator cs
  | .equalsCond cs => Condition.evalFirst σ EqualsCondition.applyOperator cs
  | .notCond c => (Condition.isConditionTrue σ c).map (fun b => !b)
  | .stringCond p vals w =>
      (StringCondition.evaluateParameter σ p vals).map
        (ParameterCondition.isConditionTrueOf w)
  | .numberCond T p f w =>
      (NumberCondition.evaluateParameter σ T p f).map
        (ParameterCondition.isConditionTrueOf w)
  | .boolCond p w =>
      (BoolCondition.evaluateParameter σ p).map
        (ParameterCondition.isConditionTrueOf w)

/-- Evaluate the first child to seed the accumulator of the left-to-right
reduction; an empty list has no defined result. -/
def Condition.evalFirst (σ : PState) (op : Bool → Bool → Bool) :
    List Condition → Option Bool
  | [] => none
  | c :: rest =>
      (Condition.isConditionTrue σ c).bind
        (fun b => Condition.evalFold σ op b rest)

/-- Left-to-right reduction of the remaining children through applyOperator,
as the spec describes the loop of BinaryLogicalCondition isConditionTrue. -/
def Condition.evalFold (σ : PState) (op : Bool → Bool → Bool) (acc : Bool) :
    List Condition → Option Bool
  | [] => some acc
  | c :: rest =>
      (Condition.isConditionTrue σ c).bind
        (fun b => Condition.evalFold σ op (op acc b) rest)

end

/-- The InvalidConditionException raised by malformed condition
construction. -/
inductive ConditionError where
  | invalidCondition (msg : String)
deriving DecidableEq

/-- Whether a constructor call succeeded (raised no exception). -/
def ctorOk {α : Type} : Except ConditionError α → Bool
  | .ok _ => true
  | .error _ => false

/-- BinaryLogicalCondition constructor check.  Modelled from the spec: the
translation unit defining the constructor is absent; the spec states that
construction fails with a configuration error if the child list is
empty. -/
def BinaryLogicalCondition.checkConditions (conditions : List Condition) :
    Except ConditionError Unit :=
  if conditions.isEmpty then
    .error (.invalidCondition
      "You must provide at least one condition to a BinaryLogicalCondition")
  else
    .ok ()

/-- OrCondition constructor.  Modelled from the spec: delegates the non-empty
check to the BinaryLogicalCondition constructor. -/
def OrCondition.make (conditions : List Condition) :
    Except ConditionError Condition :=
  (BinaryLogicalCondition.checkConditions conditions).map
    (fun _ => .orCond conditions)

/-- AndCondition constructor.  Modelled from the spec: delegates the
non-empty check to the BinaryLogicalCondition constructor. -/
def AndCondition.make (conditions : List Condition) :
    Except ConditionError Condition :=
  (BinaryLogicalCondition.checkConditions conditions).map
    (fun _ => .andCond conditions)

/-- EqualsCondition constructor.  Modelled from the spec: delegates the
non-empty check to the BinaryLogicalCondition constructor. -/
def EqualsCondition.make (conditions : List Condition) :
    Except ConditionError Condition :=
  (BinaryLogicalCondition.checkConditions conditions).map
    (fun _ => .equalsCond conditions)

/-- NotCondition constructor.  Modelled from the spec: performs no check. -/
def NotCondition.make (condition : Condition) :
    Except ConditionError Condition :=
  .ok (.notCond condition)

/-- StringCondition constructor.  Modelled from the spec: performs no
structural check. -/
def StringCondition.make (p : ParameterEntry) (values : List String)
    (whenParamEqualsValue : Bool) : Except ConditionError Condition :=
  .ok (.stringCond p values whenParamEqualsValue)

/-- BoolCondition constructor.  Modelled from the spec: performs no
structural check. -/
def BoolCondition.make (p : ParameterEntry) (whenParamEqualsValue : Bool) :
    Except ConditionError Condition :=
  .ok (.boolCond p whenParamEqualsValue)

/-- NumberCondition checkForNumberType (Teuchos_StandardConditions.hpp lines
638-649): throws InvalidConditionException when the parameter is none of
int, short, double, float.  Note the check never mentions T. -/
def NumberCondition.checkForNumberType (toCheck : ParameterEntry) :
    Except ConditionError Unit :=
  if !toCheck.isType .tInt && !toCheck.isType .tShort
      && !toCheck.isType .tDouble && !toCheck.isType .tFloat then
    .error (.invalidCondition
      "The parameter of a Number Condition must be of a supported number type!")
  else
    .ok ()

/-- NumberCondition constructor (Teuchos_StandardConditions.hpp lines
582-590): stores the function pointer and runs checkForNumberType. -/
def NumberCondition.make (T : NumT) (p : ParameterEntry)
    (func : Option (T.carrier → T.carrier)) (whenParamEqualsValue : Bool) :
    Except ConditionError Condition :=
  (NumberCondition.checkForNumberType p).map
    (fun _ => .numberCond T p func whenParamEqualsValue)

mutual

/-- Structural well-formedness of a condition tree: every logical combinator
node has a non-empty child list, exactly the invariant the constructors
enforce. -/
def Condition.wellFormed : Condition → Bool
  | .orCond cs => !cs.isEmpty && Condition.wellFormedList cs
  | .andCond cs => !cs.isEmpty && Condition.wellFormedList cs
  | .equalsCond cs => !cs.isEmpty && Condition.wellFormedList cs
  | .notCond c => Condition.wellFormed c
  | .stringCond _ _ _ => true
  | .numberCond _ _ _ _ => true
  | .boolCond _ _ => true

/-- Well-formedness of every condition in a list. -/
def Condition.wellFormedList : List Condition → Bool
  | [] => true
  | c :: rest => Condition.wellFormed c && Condition.wellFormedList rest

end

mutual

/-- Well-typedness of a condition tree for a given parameter state: every
ParameterCondition leaf can read its parameter at the type it expects
(string for StringCondition, bool for BoolCondition, exactly T for a
NumberCondition with template argument T). -/
def Condition.wellTypedFor (σ : PState) : Condition → Bool
  | .orCond cs => Condition.wellTypedForList σ cs
  | .andCond cs => Condition.wellTypedForList σ cs
  | .equalsCond cs => Condition.wellTypedForList σ cs
  | .notCond c => Condition.wellTypedFor σ c
  | .stringCond p _ _ =>
      match σ p.id with
      | .vString _ => true
      | _ => false
  | .numberCond T p _ _ => (getValueNum T (σ p.id)).isSome
  | .boolCond p _ =>
      match σ p.id with
      | .vBool _ => true
      | _ => false

/-- Well-typedness of every condition in a list. -/
def Condition.wellTypedForList (σ : PState) : List Condition → Bool
  | [] => true
  | c :: rest =>
      Condition.wellTypedFor σ c && Condition.wellTypedForList σ rest

end

mutual

/-- getAllParameters over the condition tree.  The BinaryLogicalCondition,
NotCondition and ParameterCondition bodies are modelled from the spec
(their translation unit is absent): a ParameterCondition returns the
singleton of its one referenced parameter, NotCondition returns the set of
its child, a logical condition returns the de-duplicated union over its
children (the C++ bodies insert into a set keyed by parameter identity). -/
def Condition.getAllParameters : Condition → List ParameterEntry
  | .orCond cs => Condition.paramsUnion cs
  | .andCond cs => Condition.paramsUnion cs
  | .equalsCond cs => Condition.paramsUnion cs
  | .notCond c => Condition.getAllParameters c
  | .stringCond p _ _ => [p]
  | .numberCond _ p _ _ => [p]
  | .boolCond p _ => [p]

/-- De-duplicated union of getAllParameters over a list of conditions. -/
def Condition.paramsUnion : List Condition → List ParameterEntry
  | [] => []
  | c :: rest => (Condition.getAllParameters c).union (Condition.paramsUnion rest)

end

/-- Occurrence of a parameter entry somewhere in a condition tree: the
parameter identities reachable through the structure, transitively through
children. -/
inductive ParamOccurs (p : ParameterEntry) : Condition → Prop where
  | inOr {cs : List Condition} {c : Condition} :
      c ∈ cs → ParamOccurs p c → ParamOccurs p (.orCond cs)
  | inAnd {cs : List Condition} {c : Condition} :
      c ∈ cs → ParamOccurs p c → ParamOccurs p (.andCond cs)
  | inEquals {cs : List Condition} {c : Condition} :
      c ∈ cs → ParamOccurs p c → ParamOccurs p (.equalsCond cs)
  | inNot {c : Condition} :
      ParamOccurs p c → ParamOccurs p (.notCond c)
  | inString {vals : List String} {w : Bool} :
      ParamOccurs p (.stringCond p vals w)
  | inNumber {T : NumT} {f : Option (T.carrier → T.carrier)} {w : Bool} :
      ParamOccurs p (.numberCond T p f w)
  | inBool {w : Bool} :
      ParamOccurs p (.boolCond p w)

/-- Occurrence of a transform function (at its number type) somewhere in a
condition tree. -/
inductive FuncOccurs : (T : NumT) → (T.carrier → T.carrier) → Condition → Prop where
  | inOr {T f} {cs : List Condition} {c : Condition} :
      c ∈ cs → FuncOccurs T f c → FuncOccurs T f (.orCond cs)
  | inAnd {T f} {cs : List Condition} {c : Condition} :
      c ∈ cs → FuncOccurs T f c → FuncOccurs T f (.andCond cs)
  | inEquals {T f} {cs : List Condition} {c : Condition} :
      c ∈ cs → FuncOccurs T f c → FuncOccurs T f (.equalsCond cs)
  | inNot {T f} {c : Condition} :
      FuncOccurs T f c → FuncOccurs T f (.notCond c)
  | inNumber {T f} {p : ParameterEntry} {w : Bool} :
      FuncOccurs T f (.numberCond T p (some f) w)

/-- A structured document fragment: a tag, a list of attributes and a list
of child fragments, after Teuchos XMLObject. -/
inductive XMLObject where
  | node (tag : String) (attrs : List (String × String))
      (children : List XMLObject)

/-- Tag of a fragment. -/
def XMLObject.tag : XMLObject → String
  | .node t _ _ => t

/-- Attribute list of a fragment. -/
def XMLObject.attrs : XMLObject → List (String × String)
  | .node _ a _ => a

/-- Child list of a fragment. -/
def XMLObject.children : XMLObject → List XMLObject
  | .node _ _ cs => cs

/-- Look up an attribute value by name in an attribute list, first binding
wins. -/
def lookupAttr (attrs : List (String × String)) (name : String) :
    Option String :=
  (attrs.find? (fun a => a.1 == name)).map (fun a => a.2)

/-- Look up an attribute value by name, first binding wins. -/
def XMLObject.getAttribute (x : XMLObject) (name : String) : Option String :=
  lookupAttr x.attrs name

/-- The non-failing attribute access the dependency converter loop performs
on a matching child: the stored value, or the empty string when absent. -/
def XMLObject.getAttributeD (x : XMLObject) (name : String) : String :=
  (x.getAttribute name).getD ""

/-- findFirstChild of XMLObject: the first child bearing the given tag. -/
def XMLObject.findFirstChild (x : XMLObject) (tagName : String) :
    Option XMLObject :=
  x.children.find? (fun c => c.tag == tagName)

/-- The exceptions the dependency converter raises. -/
inductive DependencyError where
  | missingDependees
  | missingDependents
deriving DecidableEq

/-- DependencyXMLConverter fromXMLtoDependency, embedded from its translation
unit: raise MissingDependeesException when no child bears the dependee tag,
then MissingDependentsException when no child bears the dependent tag; then
walk the children in order, resolving the parameter-ID attribute of each
matching child through the process-wide registry (getParameterEntry,
modelled by the total lookup reg) into the dependee list or the dependent
list.  The result models the data handed to the virtual convertXML hook. -/
def DependencyXMLConverter.fromXMLtoDependency
    (dependeeTagName dependentTagName parameterIDAttributeName : String)
    (reg : String → ParameterEntry) (xmlObj : XMLObject) :
    Except DependencyError (List ParameterEntry × List ParameterEntry) :=
  if (xmlObj.findFirstChild dependeeTagName).isNone then
    .error .missingDependees
  else if (xmlObj.findFirstChild dependentTagName).isNone then
    .error .missingDependents
  else
    let dependees := (xmlObj.children.filter
      (fun child => child.tag == dependeeTagName)).map
        (fun child => reg (child.getAttributeD parameterIDAttributeName))
    let dependents := (xmlObj.children.filter
      (fun child => child.tag == dependentTagName)).map
        (fun child => reg (child.getAttributeD parameterIDAttributeName))
    .ok (dependees, dependents)

/-- Registry resolving a stable parameter ID back to a live ParameterEntry
reference, as the spec describes for deserialization. -/
def ParamRegistry : Type := String → Option ParameterEntry

/-- Naming of transform functions for serialization: the transform-function
tag the converter writes for a Number condition function. -/
def FuncNaming : Type := (T : NumT) → (T.carrier → T.carrier) → String

/-- Registry resolving a transform-function tag back to the function at a
given number type. -/
def FuncRegistry : Type := (T : NumT) → String → Option (T.carrier → T.carrier)

/-- Encoding of the polarity flag as an attribute value. -/
def boolAttr (b : Bool) : String :=
  if b then "true" else "false"

mutual

/-- Condition toDocument.  Modelled from the spec: emits a fragment tagged
with the stable condition tag, sets the type attribute to
getTypeAttributeValue, and emits variant payload — child fragments for the
logical and Not variants, the parameter ID and polarity flag for the
ParameterCondition variants, the value list as child fragments for String,
and a transform-function tag for Number when a function is present. -/
def ConditionXMLConverter.toDocument (fname : FuncNaming) :
    Condition → XMLObject
  | .orCond cs =>
      .node "Condition" [("type", "orCondition")]
        (ConditionXMLConverter.toDocumentList fname cs)
  | .andCond cs =>
      .node "Condition" [("type", "andCondition")]
        (ConditionXMLConverter.toDocumentList fname cs)
  | .equalsCond cs =>
      .node "Condition" [("type", "equalsCondition")]
        (ConditionXMLConverter.toDocumentList fname cs)
  | .notCond c =>
      .node "Condition" [("type", "notCondition")]
        [ConditionXMLConverter.toDocument fname c]
  | .stringCond p vals w =>
      .node "Condition"
        [("type", "stringCondition"), ("parameterId", p.id),
          ("whenParamEqualsValue", boolAttr w)]
        (vals.map (fun s => .node "Value" [("value", s)] []))
  | .numberCond T p f w =>
      .node "Condition"
        ([("type", T.typeName ++ "NumberCondition"), ("parameterId", p.id),
          ("whenParamEqualsValue", boolAttr w)] ++
          (match f with
            | none => []
            | some fn => [("functionTag", fname T fn)]))
        []
  | .boolCond p w =>
      .node "Condition"
        [("type", "boolCondition"), ("parameterId", p.id),
          ("whenParamEqualsValue", boolAttr w)]
        []

/-- Serialize a list of child conditions in order. -/
def ConditionXMLConverter.toDocumentList (fname : FuncNaming) :
    List Condition → List XMLObject
  | [] => []
  | c :: rest =>
      ConditionXMLConverter.toDocument fname c ::
        ConditionXMLConverter.toDocumentList fname rest

end

/-- Decode the value-list children of a stringCondition fragment. -/
def ConditionXMLConverter.decodeValues : List XMLObject → Option (List String)
  | [] => some []
  | x :: rest =>
      if x.tag == "Value" then
        (x.getAttribute "value").bind (fun s =>
          (ConditionXMLConverter.decodeValues rest).map (fun ss => s :: ss))
      else
        none

/-- Decode the common ParameterCondition payload: parameter identity resolved
through the registry, and the polarity flag. -/
def ConditionXMLConverter.decodeParamPayload (preg : ParamRegistry)
    (attrs : List (String × String)) : Option (ParameterEntry × Bool) :=
  (lookupAttr attrs "parameterId").bind (fun pid =>
    (preg pid).bind (fun p =>
      (lookupAttr attrs "whenParamEqualsValue").map (fun ws =>
        (p, ws == "true"))))

/-- Decode the number type from a type attribute value, when it names a
NumberCondition variant. -/
def ConditionXMLConverter.decodeNumT (t : String) : Option NumT :=
  if t == "intNumberCondition" then some .nInt
  else if t == "shortNumberCondition" then some .nShort
  else if t == "doubleNumberCondition" then some .nDouble
  else if t == "floatNumberCondition" then some .nFloat
  else none

mutual

/-- Condition fromDocument.  Modelled from the spec: dispatches on the type
attribute to the correct variant; fails with a missing-structure error
(modelled as none) when a logical fragment lacks its operand fragments or
a required attribute is absent; resolves parameter identities through the
registry preg and transform-function tags through the registry freg. -/
def ConditionXMLConverter.fromDocument (preg : ParamRegistry)
    (freg : FuncRegistry) : XMLObject → Option Condition
  | .node _ attrs children =>
    (lookupAttr attrs "type").bind (fun t =>
      if t == "orCondition" then
        (ConditionXMLConverter.fromDocumentList preg freg children).bind
          (fun cs => if cs.isEmpty then none else some (.orCond cs))
      else if t == "andCondition" then
        (ConditionXMLConverter.fromDocumentList preg freg children).bind
          (fun cs => if cs.isEmpty then none else some (.andCond cs))
      else if t == "equalsCondition" then
        (ConditionXMLConverter.fromDocumentList preg freg children).bind
          (fun cs => if cs.isEmpty then none else some (.equalsCond cs))
      else if t == "notCondition" then
        (ConditionXMLConverter.fromDocumentList preg freg children).bind
          (fun cs =>
            match cs with
            | [c] => some (.notCond c)
            | _ => none)
      else if t == "stringCondition" then
        (ConditionXMLConverter.decodeParamPayload preg attrs).bind (fun pw =>
          (ConditionXMLConverter.decodeValues children).map (fun vals =>
            .stringCond pw.1 vals pw.2))
      else if t == "boolCondition" then
        (ConditionXMLConverter.decodeParamPayload preg attrs).map
          (fun pw => .boolCond pw.1 pw.2)
      else
        (ConditionXMLConverter.decodeNumT t).bind (fun T =>
          (ConditionXMLConverter.decodeParamPayload preg attrs).bind
            (fun pw =>
              match lookupAttr attrs "functionTag" with
              | none => some (.numberCond T pw.1 none pw.2)
              | some ftag =>
                  (freg T ftag).map (fun f =>
                    .numberCond T pw.1 (some f) pw.2))))

/-- Deserialize a list of operand fragments in order; any failure
propagates. -/
def ConditionXMLConverter.fromDocumentList (preg : ParamRegistry)
    (freg : FuncRegistry) : List XMLObject → Option (List Condition)
  | [] => some []
  | x :: rest =>
      (ConditionXMLConverter.fromDocument preg freg x).bind (fun c =>
        (ConditionXMLConverter.fromDocumentList preg freg rest).map
          (fun cs => c :: cs))

end

/-- The ordered list of child isConditionTrue results, when every child
evaluates; a failing child propagates. -/
def Condition.evalChildren (σ : PState) : List Condition → Option (List Bool)
  | [] => some []
  | c :: rest =>
      (Condition.isConditionTrue σ c).bind (fun b =>
        (Condition.evalChildren σ rest).map (fun bs => b :: bs))

/-- A bool-typed parameter used by concrete instances. -/
def pBoolT : ParameterEntry := ⟨"t", .tBool⟩

/-- A state in which every parameter holds the boolean true. -/
def σAllTrue : PState := fun _ => .vBool true

/-- A double-typed parameter used by concrete instances. -/
def pDoubleX : ParameterEntry := ⟨"x", .tDouble⟩

/-- A state in which every parameter holds the double 7. -/
def σDouble7 : PState := fun _ => .vDouble 7

/-- A state in which every parameter holds the double 1. -/
def σDouble1 : PState := fun _ => .vDouble 1

/-- Concrete parameter P1. -/
def demoP1 : ParameterEntry := ⟨"P1", .tBool⟩

/-- Concrete parameter P2. -/
def demoP2 : ParameterEntry := ⟨"P2", .tBool⟩

/-- Concrete parameter P3. -/
def demoP3 : ParameterEntry := ⟨"P3", .tBool⟩

/-- The tree And(Or(P1, P2), Not(P3), P1), in which P1 appears under two
different children. -/
def demoTree : Condition :=
  .andCond [.orCond [.boolCond demoP1 true, .boolCond demoP2 true],
    .notCond (.boolCond demoP3 true), .boolCond demoP1 true]

/-- A concrete child list whose evaluations under σAllTrue are true then
false. -/
def csPair : List Condition :=
  [.boolCond pBoolT true, .notCond (.boolCond pBoolT true)]

/-- A concrete condition tree for the serialization round trip. -/
def rtTree : Condition :=
  .andCond [.stringCond demoP1 ["a", "b"] true,
    .notCond (.boolCond demoP2 false),
    .numberCond .nDouble pDoubleX none true]

/-- A concrete parameter registry resolving the ids of the round-trip
tree. -/
def rtPreg : ParamRegistry := fun s =>
  if s = "P1" then some demoP1
  else if s = "P2" then some demoP2
  else if s = "x" then some pDoubleX
  else none

/-- A concrete transform-function naming map. -/
def rtFname : FuncNaming := fun _ _ => "f"

/-- A concrete transform-function registry. -/
def rtFreg : FuncRegistry := fun _ _ => none

/-- A concrete parameter-ID registry for the dependency converter. -/
def depReg : String → ParameterEntry := fun s => ⟨s, .tInt⟩

/-- A dependency fragment holding one dependee child and one dependent
child. -/
def depXML : XMLObject :=
  .node "Dependency" []
    [.node "Dependee" [("id", "a")] [], .node "Dependent" [("id", "b")] []]

/-- A dependency fragment with no children at all. -/
def depXMLEmpty : XMLObject := .node "Dependency" [] []

/-! Theorems. -/

/-- Mapping the inline ParameterCondition isConditionTrue body over an
optional evaluateParameter result leaves the result unchanged. -/
theorem map_isConditionTrueOf (w : Bool) (o : Option Bool) :
    o.map (ParameterCondition.isConditionTrueOf w) = o := by
  cases o with
  | none => rfl
  | some b => cases w <;> cases b <;> rfl

/-- C1: the claim states isConditionTrue of a ParameterCondition equals
(evaluateParameter() == whenParamEqualsValue); the constructor documentation
(Teuchos_StandardConditions.hpp lines 358-371) states the same intent.  The
inline body at lines 407-417 violates it: at whenParamEqualsValue = false
and evaluateParameter() = false it returns false where the documented
semantics yields true. -/
theorem parameterCondition_polarity_code_bug :
    ParameterCondition.isConditionTrueOf false false = false ∧
    ((false == false) = true) ∧
    ParameterCondition.isConditionTrueOf false false ≠ (false == false) := by
  refine ⟨rfl, rfl, ?_⟩
  decide

/-- C9: for every ParameterCondition and every parameter state,
isConditionTrue returns exactly evaluateParameter: the inline body collapses
to the raw evaluation for both values of the polarity flag, so the stored
flag has no effect on evaluation. -/
theorem parameterCondition_ignores_polarity :
    (∀ w e : Bool, ParameterCondition.isConditionTrueOf w e = e) ∧
    (∀ (σ : PState) (p : ParameterEntry) (vals : List String) (w w2 : Bool),
      Condition.isConditionTrue σ (.stringCond p vals w) =
        StringCondition.evaluateParameter σ p vals ∧
      Condition.isConditionTrue σ (.boolCond p w) =
        BoolCondition.evaluateParameter σ p ∧
      (∀ (T : NumT) (f : Option (T.carrier → T.carrier)),
        Condition.isConditionTrue σ (.numberCond T p f w) =
          NumberCondition.evaluateParameter σ T p f) ∧
      Condition.isConditionTrue σ (.stringCond p vals w) =
        Condition.isConditionTrue σ (.stringCond p vals w2)) := by
  refine ⟨by decide, fun σ p vals w w2 => ?_⟩
  refine ⟨?_, ?_, fun T f => ?_, ?_⟩ <;>
    simp only [Condition.isConditionTrue, map_isConditionTrueOf]

/-- C4: NumberCondition evaluateParameter applies the configured transform
(the identity when no function pointer was supplied) to the current value
and tests the result strictly greater than zero; for a double parameter
with no transform this is value > 0, and with the transform x - 5 it is
value > 5. -/
theorem numberCondition_evaluateParameter_spec (σ : PState) (T : NumT)
    (p : ParameterEntry) (func : Option (T.carrier → T.carrier))
    (v : T.carrier) (h : getValueNum T (σ p.id) = some v) :
    NumberCondition.evaluateParameter σ T p func =
      some (T.gtZero (runFunction func v)) ∧
    runFunction (T := T) none v = v ∧
    (∀ q : ℚ, NumT.gtZero .nDouble q = decide (0 < q)) ∧
    (∀ q : ℚ, NumT.gtZero .nDouble
        (runFunction (T := .nDouble) (some (fun x => x - 5)) q) =
      decide (5 < q)) := by
  refine ⟨?_, rfl, fun q => rfl, fun q => ?_⟩
  · unfold NumberCondition.evaluateParameter
    rw [h]
    rfl
  · show decide (0 < q - 5) = decide (5 < q)
    exact decide_eq_decide.mpr (by constructor <;> intro <;> linarith)

/-- C4 witness: at the all-seven double state, the double NumberCondition
with transform x - 5 evaluates per the theorem. -/
theorem numberCondition_evaluateParameter_spec_witness :
    NumberCondition.evaluateParameter σDouble7 .nDouble pDoubleX
        (some (fun x => x - 5)) =
      some (NumT.gtZero .nDouble
        (runFunction (T := .nDouble) (some (fun x => x - 5)) 7)) :=
  (numberCondition_evaluateParameter_spec σDouble7 .nDouble pDoubleX
    (some (fun x => x - 5)) 7 rfl).1

/-- Whether a NumberCondition constructor call succeeds depends only on the
checkForNumberType result for the bound parameter. -/
theorem ctorOk_numberMake (T : NumT) (p : ParameterEntry)
    (func : Option (T.carrier → T.carrier)) (w : Bool) :
    ctorOk (NumberCondition.make T p func w) =
      ctorOk (NumberCondition.checkForNumberType p) := by
  unfold NumberCondition.make
  cases NumberCondition.checkForNumberType p <;> rfl

/-- C10: constructing a NumberCondition succeeds whenever the bound
parameter is declared int, short, double or float, even when that type
differs from the template argument T; the construction-time check never
compares the parameter type against T, so success is independent of T and
of the supplied transform. -/
theorem numberCondition_construction_ignores_T (T : NumT)
    (p : ParameterEntry) (func : Option (T.carrier → T.carrier)) (w : Bool)
    (h : p.ptype = .tInt ∨ p.ptype = .tShort ∨ p.ptype = .tDouble ∨
      p.ptype = .tFloat) :
    ctorOk (NumberCondition.make T p func w) = true ∧
    (∀ (T2 : NumT) (func2 : Option (T2.carrier → T2.carrier)) (w2 : Bool),
      ctorOk (NumberCondition.make T p func w) =
        ctorOk (NumberCondition.make T2 p func2 w2)) := by
  constructor
  · rw [ctorOk_numberMake]
    rcases h with h | h | h | h <;>
      simp [NumberCondition.checkForNumberType, ParameterEntry.isType, h,
        ctorOk]
  · intro T2 func2 w2
    rw [ctorOk_numberMake, ctorOk_numberMake]

/-- C10 witness: a NumberCondition with template argument int bound to a
double-typed parameter constructs successfully. -/
theorem numberCondition_construction_ignores_T_witness :
    ctorOk (NumberCondition.make .nInt pDoubleX none true) = true :=
  (numberCondition_construction_ignores_T .nInt pDoubleX none true
    (Or.inr (Or.inr (Or.inl rfl)))).1

/-- C5: construction raises the invalid-structure error
(InvalidConditionException) exactly when a binary logical condition is
given an empty child list or a NumberCondition is bound to a parameter
declared none of int, short, double, float; the NotCondition,
StringCondition and BoolCondition constructors never raise it. -/
theorem construction_invalid_iff :
    (∀ cs : List Condition, ctorOk (OrCondition.make cs) = false ↔ cs = []) ∧
    (∀ cs : List Condition, ctorOk (AndCondition.make cs) = false ↔ cs = []) ∧
    (∀ cs : List Condition,
      ctorOk (EqualsCondition.make cs) = false ↔ cs = []) ∧
    (∀ (T : NumT) (p : ParameterEntry)
        (func : Option (T.carrier → T.carrier)) (w : Bool),
      ctorOk (NumberCondition.make T p func w) = false ↔
        (p.ptype ≠ .tInt ∧ p.ptype ≠ .tShort ∧ p.ptype ≠ .tDouble ∧
          p.ptype ≠ .tFloat)) ∧
    (∀ c : Condition, ctorOk (NotCondition.make c) = true) ∧
    (∀ (p : ParameterEntry) (vals : List String) (w : Bool),
      ctorOk (StringCondition.make p vals w) = true) ∧
    (∀ (p : ParameterEntry) (w : Bool),
      ctorOk (BoolCondition.make p w) = true) := by
  refine ⟨fun cs => ?_, fun cs => ?_, fun cs => ?_, fun T p func w => ?_,
    fun c => rfl, fun p vals w => rfl, fun p w => rfl⟩
  · cases cs <;>
      simp [OrCondition.make, BinaryLogicalCondition.checkConditions, ctorOk,
        Except.map]
  · cases cs <;>
      simp [AndCondition.make, BinaryLogicalCondition.checkConditions, ctorOk,
        Except.map]
  · cases cs <;>
      simp [EqualsCondition.make, BinaryLogicalCondition.checkConditions,
        ctorOk, Except.map]
  · rw [ctorOk_numberMake]
    obtain ⟨pid, pt⟩ := p
    cases pt <;>
      simp [NumberCondition.checkForNumberType, ParameterEntry.isType, ctorOk]

/-- The reduction loop computes the left fold of the child values over the
operator, starting from the accumulator. -/
theorem evalFold_eq (σ : PState) (op : Bool → Bool → Bool)
    (cs : List Condition) :
    ∀ (acc : Bool) (bs : List Bool),
      Condition.evalChildren σ cs = some bs →
      Condition.evalFold σ op acc cs = some (bs.foldl op acc) := by
  induction cs with
  | nil =>
    intro acc bs h
    simp only [Condition.evalChildren, Option.some.injEq] at h
    subst h
    rfl
  | cons c rest ih =>
    intro acc bs h
    simp only [Condition.evalChildren] at h
    cases hc : Condition.isConditionTrue σ c with
    | none => rw [hc] at h; simp at h
    | some b =>
      rw [hc] at h
      simp only [Option.some_bind, Option.map_eq_some'] at h
      obtain ⟨bs0, hbs0, rfl⟩ := h
      simp only [Condition.evalFold, hc, Option.some_bind]
      rw [ih (op acc b) bs0 hbs0]
      rfl

/-- Seeding from the first child and folding the rest computes the left
fold of all child values starting from the first. -/
theorem evalFirst_eq (σ : PState) (op : Bool → Bool → Bool)
    (cs : List Condition) (b : Bool) (bs : List Bool)
    (h : Condition.evalChildren σ cs = some (b :: bs)) :
    Condition.evalFirst σ op cs = some (bs.foldl op b) := by
  cases cs with
  | nil => simp [Condition.evalChildren] at h
  | cons c rest =>
    simp only [Condition.evalChildren] at h
    cases hc : Condition.isConditionTrue σ c with
    | none => rw [hc] at h; simp at h
    | some b0 =>
      rw [hc] at h
      simp only [Option.some_bind, Option.map_eq_some'] at h
      obtain ⟨bs0, hbs0, heq⟩ := h
      obtain ⟨rfl, rfl⟩ : b0 = b ∧ bs0 = bs := by
        injection heq with h1 h2
        exact ⟨h1, h2⟩
      simp only [Condition.evalFirst, hc, Option.some_bind]
      exact evalFold_eq σ op rest _ _ hbs0

/-- Left fold of the Or operator equals the any-of test. -/
theorem foldl_orOp (bs : List Bool) :
    ∀ b : Bool, bs.foldl OrCondition.applyOperator b = (b || bs.any id) := by
  induction bs with
  | nil => intro b; simp
  | cons x xs ih =>
    intro b
    simp only [List.foldl_cons, List.any_cons, ih, OrCondition.applyOperator,
      id, Bool.or_assoc]

/-- Left fold of the And operator equals the all-of test. -/
theorem foldl_andOp (bs : List Bool) :
    ∀ b : Bool, bs.foldl AndCondition.applyOperator b = (b && bs.all id) := by
  induction bs with
  | nil => intro b; simp
  | cons x xs ih =>
    intro b
    simp only [List.foldl_cons, List.all_cons, ih, AndCondition.applyOperator,
      id, Bool.and_assoc]

/-- C2: a binary logical condition over a non-empty child list evaluates to
the left-to-right fold of the child values under the applyOperator of the
variant (or, and, equality); consequently Or is true iff some child is
true, And is true iff all children are true, Equals over three values
chains as ((v1 == v2) == v3), and with a single child the result is that
child value. -/
theorem binaryLogical_fold_spec (σ : PState) (cs : List Condition)
    (b : Bool) (bs : List Bool)
    (h : Condition.evalChildren σ cs = some (b :: bs)) :
    Condition.isConditionTrue σ (.orCond cs) =
      some (bs.foldl OrCondition.applyOperator b) ∧
    Condition.isConditionTrue σ (.andCond cs) =
      some (bs.foldl AndCondition.applyOperator b) ∧
    Condition.isConditionTrue σ (.equalsCond cs) =
      some (bs.foldl EqualsCondition.applyOperator b) ∧
    (∀ x y : Bool, OrCondition.applyOperator x y = (x || y)) ∧
    (∀ x y : Bool, AndCondition.applyOperator x y = (x && y)) ∧
    (∀ x y : Bool, EqualsCondition.applyOperator x y = (x == y)) ∧
    bs.foldl OrCondition.applyOperator b = (b :: bs).any id ∧
    bs.foldl AndCondition.applyOperator b = (b :: bs).all id ∧
    (∀ v1 v2 v3 : Bool,
      [v2, v3].foldl EqualsCondition.applyOperator v1 = ((v1 == v2) == v3)) ∧
    (bs = [] → Condition.isConditionTrue σ (.orCond cs) = some b ∧
      Condition.isConditionTrue σ (.andCond cs) = some b ∧
      Condition.isConditionTrue σ (.equalsCond cs) = some b) := by
  have hor : Condition.isConditionTrue σ (.orCond cs) =
      some (bs.foldl OrCondition.applyOperator b) := by
    simp only [Condition.isConditionTrue]
    exact evalFirst_eq σ _ cs b bs h
  have hand : Condition.isConditionTrue σ (.andCond cs) =
      some (bs.foldl AndCondition.applyOperator b) := by
    simp only [Condition.isConditionTrue]
    exact evalFirst_eq σ _ cs b bs h
  have heq : Condition.isConditionTrue σ (.equalsCond cs) =
      some (bs.foldl EqualsCondition.applyOperator b) := by
    simp only [Condition.isConditionTrue]
    exact evalFirst_eq σ _ cs b bs h
  refine ⟨hor, hand, heq, fun x y => rfl, fun x y => rfl, fun x y => rfl,
    ?_, ?_, by decide, ?_⟩
  · rw [foldl_orOp, List.any_cons]
    rfl
  · rw [foldl_andOp, List.all_cons]
    rfl
  · rintro rfl
    exact ⟨hor, hand, heq⟩

/-- C2 witness: over the concrete pair of children evaluating to true then
false, the Or condition evaluates to the fold of the operator. -/
theorem binaryLogical_fold_spec_witness :
    Condition.isConditionTrue σAllTrue (.orCond csPair) =
      some ([false].foldl OrCondition.applyOperator true) :=
  (binaryLogical_fold_spec σAllTrue csPair true [false] rfl).1

/-- Membership in a well-formedness-checked list gives well-formedness of
the member. -/
theorem wellFormedList_mem {cs : List Condition} {c : Condition}
    (h : Condition.wellFormedList cs = true) (hc : c ∈ cs) :
    Condition.wellFormed c = true := by
  induction cs with
  | nil => cases hc
  | cons d rest ih =>
    simp only [Condition.wellFormedList, Bool.and_eq_true] at h
    cases hc with
    | head => exact h.1
    | tail _ hm => exact ih h.2 hm

/-- Membership in a well-typedness-checked list gives well-typedness of the
member. -/
theorem wellTypedForList_mem {σ : PState} {cs : List Condition}
    {c : Condition} (h : Condition.wellTypedForList σ cs = true)
    (hc : c ∈ cs) : Condition.wellTypedFor σ c = true := by
  induction cs with
  | nil => cases hc
  | cons d rest ih =>
    simp only [Condition.wellTypedForList, Bool.and_eq_true] at h
    cases hc with
    | head => exact h.1
    | tail _ hm => exact ih h.2 hm

/-- The reduction loop yields a value whenever every child evaluates. -/
theorem evalFold_isSome (σ : PState) (op : Bool → Bool → Bool) :
    ∀ cs : List Condition,
      (∀ c ∈ cs, (Condition.isConditionTrue σ c).isSome = true) →
      ∀ acc : Bool, (Condition.evalFold σ op acc cs).isSome = true := by
  intro cs
  induction cs with
  | nil => intro _ acc; rfl
  | cons c rest ih =>
    intro h acc
    have hc := h c (List.mem_cons_self c rest)
    cases hco : Condition.isConditionTrue σ c with
    | none => rw [hco] at hc; simp at hc
    | some b =>
      simp only [Condition.evalFold, hco, Option.some_bind]
      exact ih (fun d hd => h d (List.mem_cons_of_mem c hd)) (op acc b)

/-- The whole reduction yields a value whenever the child list is non-empty
and every child evaluates. -/
theorem evalFirst_isSome (σ : PState) (op : Bool → Bool → Bool)
    (cs : List Condition) (hne : cs.isEmpty = false)
    (h : ∀ c ∈ cs, (Condition.isConditionTrue σ c).isSome = true) :
    (Condition.evalFirst σ op cs).isSome = true := by
  cases cs with
  | nil => simp at hne
  | cons c rest =>
    have hc := h c (List.mem_cons_self c rest)
    cases hco : Condition.isConditionTrue σ c with
    | none => rw [hco] at hc; simp at hc
    | some b =>
      simp only [Condition.evalFirst, hco, Option.some_bind]
      exact evalFold_isSome σ op rest
        (fun d hd => h d (List.mem_cons_of_mem c hd)) b

/-- Totality of evaluation over well-formed, well-typed condition trees, by
strong induction on the size of the tree. -/
theorem isConditionTrue_total_aux (σ : PState) :
    ∀ (n : Nat) (c : Condition), sizeOf c ≤ n →
      Condition.wellFormed c = true → Condition.wellTypedFor σ c = true →
      (Condition.isConditionTrue σ c).isSome = true := by
  intro n
  induction n with
  | zero =>
    intro c hle
    exfalso
    cases c <;> simp_arith at hle
  | succ m ih =>
    intro c hle hwf hwt
    cases c with
    | orCond cs =>
      simp only [Condition.wellFormed, Bool.and_eq_true] at hwf
      simp only [Condition.wellTypedFor] at hwt
      simp only [Condition.isConditionTrue]
      refine evalFirst_isSome σ _ cs (by
        cases he : cs.isEmpty with
        | false => rfl
        | true => rw [he] at hwf; simp at hwf) ?_
      intro d hd
      refine ih d ?_ (wellFormedList_mem hwf.2 hd) (wellTypedForList_mem hwt hd)
      have h1 := List.sizeOf_lt_of_mem hd
      have h2 : sizeOf (Condition.orCond cs) = 1 + sizeOf cs := by simp
      omega
    | andCond cs =>
      simp only [Condition.wellFormed, Bool.and_eq_true] at hwf
      simp only [Condition.wellTypedFor] at hwt
      simp only [Condition.isConditionTrue]
      refine evalFirst_isSome σ _ cs (by
        cases he : cs.isEmpty with
        | false => rfl
        | true => rw [he] at hwf; simp at hwf) ?_
      intro d hd
      refine ih d ?_ (wellFormedList_mem hwf.2 hd) (wellTypedForList_mem hwt hd)
      have h1 := List.sizeOf_lt_of_mem hd
      have h2 : sizeOf (Condition.andCond cs) = 1 + sizeOf cs := by simp
      omega
    | equalsCond cs =>
      simp only [Condition.wellFormed, Bool.and_eq_true] at hwf
      simp only [Condition.wellTypedFor] at hwt
      simp only [Condition.isConditionTrue]
      refine evalFirst_isSome σ _ cs (by
        cases he : cs.isEmpty with
        | false => rfl
        | true => rw [he] at hwf; simp at hwf) ?_
      intro d hd
      refine ih d ?_ (wellFormedList_mem hwf.2 hd) (wellTypedForList_mem hwt hd)
      have h1 := List.sizeOf_lt_of_mem hd
      have h2 : sizeOf (Condition.equalsCond cs) = 1 + sizeOf cs := by simp
      omega
    | notCond c1 =>
      simp only [Condition.wellFormed] at hwf
      simp only [Condition.wellTypedFor] at hwt
      have hrec : (Condition.isConditionTrue σ c1).isSome = true := by
        refine ih c1 ?_ hwf hwt
        have h2 : sizeOf (Condition.notCond c1) = 1 + sizeOf c1 := by simp
        omega
      simp only [Condition.isConditionTrue]
      cases hco : Condition.isConditionTrue σ c1 with
      | none => rw [hco] at hrec; simp at hrec
      | some b => rfl
    | stringCond p vals w =>
      simp only [Condition.wellTypedFor] at hwt
      simp only [Condition.isConditionTrue]
      cases hv : σ p.id with
      | vString s =>
          simp [StringCondition.evaluateParameter, hv]
      | vInt n => rw [hv] at hwt; simp at hwt
      | vShort n => rw [hv] at hwt; simp at hwt
      | vDouble q => rw [hv] at hwt; simp at hwt
      | vFloat q => rw [hv] at hwt; simp at hwt
      | vBool b => rw [hv] at hwt; simp at hwt
    | numberCond T p f w =>
      simp only [Condition.wellTypedFor] at hwt
      simp only [Condition.isConditionTrue,
        NumberCondition.evaluateParameter]
      cases hv : getValueNum T (σ p.id) with
      | none => rw [hv] at hwt; simp at hwt
      | some v => simp [hv]
    | boolCond p w =>
      simp only [Condition.wellTypedFor] at hwt
      simp only [Condition.isConditionTrue]
      cases hv : σ p.id with
      | vBool b =>
          simp [BoolCondition.evaluateParameter, hv]
      | vInt n => rw [hv] at hwt; simp at hwt
      | vShort n => rw [hv] at hwt; simp at hwt
      | vDouble q => rw [hv] at hwt; simp at hwt
      | vFloat q => rw [hv] at hwt; simp at hwt
      | vString s => rw [hv] at hwt; simp at hwt

/-- C3 (amended): once construction succeeded — so every logical node has a
non-empty child list — and every ParameterCondition leaf reads its
parameter at the type the leaf expects (exactly T for a NumberCondition of
template argument T), isConditionTrue returns a boolean and never fails.
The unamended claim fails because the construction-time check of
NumberCondition never compares against T, so evaluation can fail after
successful construction. -/
theorem isConditionTrue_never_fails (σ : PState) (c : Condition)
    (hwf : Condition.wellFormed c = true)
    (hwt : Condition.wellTypedFor σ c = true) :
    (Condition.isConditionTrue σ c).isSome = true :=
  isConditionTrue_total_aux σ (sizeOf c) c (le_refl _) hwf hwt

/-- C3 witness: a concrete well-formed, well-typed tree evaluates to a
boolean. -/
theorem isConditionTrue_never_fails_witness :
    (Condition.isConditionTrue σAllTrue
      (.orCond [.boolCond pBoolT true])).isSome = true :=
  isConditionTrue_never_fails σAllTrue (.orCond [.boolCond pBoolT true])
    (by decide) (by decide)

/-- C3 counterexample: a NumberCondition with template argument int bound
to a double-typed parameter constructs successfully, yet at a state where
the parameter holds a double its isConditionTrue yields no boolean — the
claim that evaluation never fails whatever numeric type the parameter
holds is false on the code. -/
theorem isConditionTrue_never_fails_counterexample :
    NumberCondition.make .nInt pDoubleX none true =
      .ok (.numberCond .nInt pDoubleX none true) ∧
    Condition.isConditionTrue σDouble1
      (.numberCond .nInt pDoubleX none true) = none ∧
    (Condition.isConditionTrue σDouble1
      (.numberCond .nInt pDoubleX none true)).isSome = false :=
  ⟨rfl, rfl, rfl⟩

/-- Membership in the union of the parameter sets of a condition list. -/
theorem mem_paramsUnion (p : ParameterEntry) :
    ∀ cs : List Condition,
      p ∈ Condition.paramsUnion cs ↔
        ∃ c ∈ cs, p ∈ Condition.getAllParameters c := by
  intro cs
  induction cs with
  | nil => simp [Condition.paramsUnion]
  | cons c rest ih =>
    simp only [Condition.paramsUnion]
    rw [show (Condition.getAllParameters c).union (Condition.paramsUnion rest)
      = Condition.getAllParameters c ∪ Condition.paramsUnion rest from rfl]
    rw [List.mem_union_iff, ih]
    constructor
    · rintro (hmem | ⟨d, hd, hm⟩)
      · exact ⟨c, List.mem_cons_self c rest, hmem⟩
      · exact ⟨d, List.mem_cons_of_mem c hd, hm⟩
    · rintro ⟨d, hd, hm⟩
      cases List.mem_cons.mp hd with
      | inl he => subst he; exact Or.inl hm
      | inr ht => exact Or.inr ⟨d, ht, hm⟩

/-- The union of the parameter sets of a condition list has no
duplicates. -/
theorem paramsUnion_nodup : ∀ cs : List Condition,
    (Condition.paramsUnion cs).Nodup
  | [] => List.nodup_nil
  | _ :: rest => List.Nodup.union _ (paramsUnion_nodup rest)

/-- getAllParameters never returns a duplicate. -/
theorem getAllParameters_nodup : ∀ c : Condition,
    (Condition.getAllParameters c).Nodup
  | .orCond cs => paramsUnion_nodup cs
  | .andCond cs => paramsUnion_nodup cs
  | .equalsCond cs => paramsUnion_nodup cs
  | .notCond c => getAllParameters_nodup c
  | .stringCond p _ _ => List.nodup_singleton p
  | .numberCond _ p _ _ => List.nodup_singleton p
  | .boolCond p _ => List.nodup_singleton p

/-- Membership in getAllParameters is exactly reachability of the parameter
through the structure, by strong induction on the size of the tree. -/
theorem mem_getAllParameters_aux :
    ∀ (n : Nat) (c : Condition), sizeOf c ≤ n → ∀ p : ParameterEntry,
      (p ∈ Condition.getAllParameters c ↔ ParamOccurs p c) := by
  intro n
  induction n with
  | zero =>
    intro c hle
    exfalso
    cases c <;> simp_arith at hle
  | succ m ih =>
    intro c hle p
    cases c with
    | orCond cs =>
      simp only [Condition.getAllParameters]
      rw [mem_paramsUnion]
      constructor
      · rintro ⟨d, hd, hm⟩
        have h1 := List.sizeOf_lt_of_mem hd
        have h2 : sizeOf (Condition.orCond cs) = 1 + sizeOf cs := by simp
        exact ParamOccurs.inOr hd ((ih d (by omega) p).mp hm)
      · intro h
        cases h with
        | inOr hd hocc =>
          have h1 := List.sizeOf_lt_of_mem hd
          have h2 : sizeOf (Condition.orCond cs) = 1 + sizeOf cs := by simp
          exact ⟨_, hd, (ih _ (by omega) p).mpr hocc⟩
    | andCond cs =>
      simp only [Condition.getAllParameters]
      rw [mem_paramsUnion]
      constructor
      · rintro ⟨d, hd, hm⟩
        have h1 := List.sizeOf_lt_of_mem hd
        have h2 : sizeOf (Condition.andCond cs) = 1 + sizeOf cs := by simp
        exact ParamOccurs.inAnd hd ((ih d (by omega) p).mp hm)
      · intro h
        cases h with
        | inAnd hd hocc =>
          have h1 := List.sizeOf_lt_of_mem hd
          have h2 : sizeOf (Condition.andCond cs) = 1 + sizeOf cs := by simp
          exact ⟨_, hd, (ih _ (by omega) p).mpr hocc⟩
    | equalsCond cs =>
      simp only [Condition.getAllParameters]
      rw [mem_paramsUnion]
      constructor
      · rintro ⟨d, hd, hm⟩
        have h1 := List.sizeOf_lt_of_mem hd
        have h2 : sizeOf (Condition.equalsCond cs) = 1 + sizeOf cs := by simp
        exact ParamOccurs.inEquals hd ((ih d (by omega) p).mp hm)
      · intro h
        cases h with
        | inEquals hd hocc =>
          have h1 := List.sizeOf_lt_of_mem hd
          have h2 : sizeOf (Condition.equalsCond cs) = 1 + sizeOf cs := by simp
          exact ⟨_, hd, (ih _ (by omega) p).mpr hocc⟩
    | notCond c1 =>
      simp only [Condition.getAllParameters]
      have h2 : sizeOf (Condition.notCond c1) = 1 + sizeOf c1 := by simp
      rw [ih c1 (by omega) p]
      constructor
      · exact fun h => ParamOccurs.inNot h
      · intro h
        cases h with
        | inNot h1 => exact h1
    | stringCond p0 vals w =>
      simp only [Condition.getAllParameters, List.mem_singleton]
      constructor
      · rintro rfl; exact ParamOccurs.inString
      · intro h; cases h; rfl
    | numberCond T p0 f w =>
      simp only [Condition.getAllParameters, List.mem_singleton]
      constructor
      · rintro rfl; exact ParamOccurs.inNumber
      · intro h; cases h; rfl
    | boolCond p0 w =>
      simp only [Condition.getAllParameters, List.mem_singleton]
      constructor
      · rintro rfl; exact ParamOccurs.inBool
      · intro h; cases h; rfl

/-- C8: getAllParameters returns exactly the set of parameter identities
reachable through the structure of the condition, transitively through
children, with duplicates removed; on a ParameterCondition it is the
singleton of its one referenced parameter, and on the concrete tree
And(Or(P1, P2), Not(P3), P1) it returns exactly the parameters P1, P2, P3
with no duplicate even though P1 appears under two children. -/
theorem getAllParameters_spec :
    (∀ c : Condition, (Condition.getAllParameters c).Nodup) ∧
    (∀ (c : Condition) (p : ParameterEntry),
      p ∈ Condition.getAllParameters c ↔ ParamOccurs p c) ∧
    (∀ (p : ParameterEntry) (vals : List String) (w : Bool),
      Condition.getAllParameters (.stringCond p vals w) = [p]) ∧
    (∀ q : ParameterEntry,
      q ∈ Condition.getAllParameters demoTree ↔
        (q = demoP1 ∨ q = demoP2 ∨ q = demoP3)) ∧
    (Condition.getAllParameters demoTree).Nodup := by
  have hdemo : Condition.getAllParameters demoTree =
      [demoP2, demoP3, demoP1] := by decide
  refine ⟨getAllParameters_nodup,
    fun c p => mem_getAllParameters_aux (sizeOf c) c (le_refl _) p,
    fun p vals w => rfl, fun q => ?_, ?_⟩
  · rw [hdemo]
    simp only [List.mem_cons, List.not_mem_nil, or_false]
    tauto
  · rw [hdemo]
    decide

/-- C6 (amended): when the fragment has no dependee-tagged child the raised
exception is MissingDependees (also when dependent children are absent too,
since the dependee check runs first); when a dependee-tagged child is
present but no dependent-tagged child, the raised exception is
MissingDependents; with both present no such error is raised and the
dependee and dependent lists are built from exactly the children bearing
those tags, in order, resolved through the parameter registry. -/
theorem fromXMLtoDependency_spec (deTag dtTag idAttr : String)
    (reg : String → ParameterEntry) (x : XMLObject) :
    (x.findFirstChild deTag = none →
      DependencyXMLConverter.fromXMLtoDependency deTag dtTag idAttr reg x =
        .error .missingDependees) ∧
    ((x.findFirstChild deTag).isSome = true →
      x.findFirstChild dtTag = none →
      DependencyXMLConverter.fromXMLtoDependency deTag dtTag idAttr reg x =
        .error .missingDependents) ∧
    ((x.findFirstChild deTag).isSome = true →
      (x.findFirstChild dtTag).isSome = true →
      DependencyXMLConverter.fromXMLtoDependency deTag dtTag idAttr reg x =
        .ok ((x.children.filter (fun child => child.tag == deTag)).map
            (fun child => reg (child.getAttributeD idAttr)),
          (x.children.filter (fun child => child.tag == dtTag)).map
            (fun child => reg (child.getAttributeD idAttr)))) := by
  refine ⟨?_, ?_, ?_⟩
  · intro h
    simp [DependencyXMLConverter.fromXMLtoDependency, h]
  · intro h1 h2
    cases hfc : x.findFirstChild deTag with
    | none => rw [hfc] at h1; simp at h1
    | some y =>
        simp [DependencyXMLConverter.fromXMLtoDependency, hfc, h2]
  · intro h1 h2
    cases hfc : x.findFirstChild deTag with
    | none => rw [hfc] at h1; simp at h1
    | some y =>
        cases hfd : x.findFirstChild dtTag with
        | none => rw [hfd] at h2; simp at h2
        | some z =>
            simp [DependencyXMLConverter.fromXMLtoDependency, hfc, hfd]

/-- C6 witness: with one dependee child and one dependent child present the
conversion succeeds and collects exactly the tagged children. -/
theorem fromXMLtoDependency_spec_witness :
    DependencyXMLConverter.fromXMLtoDependency "Dependee" "Dependent" "id"
      depReg depXML =
      .ok ((depXML.children.filter
            (fun child => child.tag == "Dependee")).map
          (fun child => depReg (child.getAttributeD "id")),
        (depXML.children.filter
            (fun child => child.tag == "Dependent")).map
          (fun child => depReg (child.getAttributeD "id"))) :=
  (fromXMLtoDependency_spec "Dependee" "Dependent" "id" depReg depXML).2.2
    (by decide) (by decide)

/-- C6 counterexample: on a fragment with no children at all there is no
dependent-tagged child, yet the raised exception is MissingDependees and
not MissingDependents, because the dependee check runs first; the claim
that a MissingDependentsException is raised whenever no dependent-tagged
child exists is therefore false on the code. -/
theorem missingDependents_precedence_counterexample :
    (depXMLEmpty.findFirstChild "Dependent" = none) ∧
    DependencyXMLConverter.fromXMLtoDependency "Dependee" "Dependent" "id"
      depReg depXMLEmpty = .error .missingDependees ∧
    (DependencyError.missingDependees ≠ DependencyError.missingDependents) :=
  ⟨rfl, rfl, by decide⟩

/-- Decoding the polarity attribute value gives back the flag. -/
theorem boolAttr_decode (w : Bool) : (boolAttr w == "true") = w := by
  cases w <;> rfl

/-- Decoding the serialized value list returns the original values. -/
theorem decodeValues_roundtrip (vals : List String) :
    ConditionXMLConverter.decodeValues
      (vals.map (fun s => .node "Value" [("value", s)] [])) = some vals := by
  induction vals with
  | nil => rfl
  | cons s rest ih =>
    simp only [List.map_cons, ConditionXMLConverter.decodeValues]
    simp [XMLObject.tag, XMLObject.getAttribute, XMLObject.attrs, lookupAttr,
      List.find?, ih]

/-- Deserializing a serialized child list returns the original children when
each child round trips. -/
theorem fromDocumentList_roundtrip (preg : ParamRegistry)
    (freg : FuncRegistry) (fname : FuncNaming) (cs : List Condition)
    (h : ∀ c ∈ cs, ConditionXMLConverter.fromDocument preg freg
      (ConditionXMLConverter.toDocument fname c) = some c) :
    ConditionXMLConverter.fromDocumentList preg freg
      (ConditionXMLConverter.toDocumentList fname cs) = some cs := by
  induction cs with
  | nil => rfl
  | cons c rest ih =>
    simp only [ConditionXMLConverter.toDocumentList,
      ConditionXMLConverter.fromDocumentList]
    rw [h c (List.mem_cons_self c rest),
      ih (fun d hd => h d (List.mem_cons_of_mem c hd))]
    rfl

/-- Round trip through the document converter, by strong induction on the
size of the condition tree. -/
theorem roundtrip_aux (preg : ParamRegistry) (fname : FuncNaming)
    (freg : FuncRegistry) :
    ∀ (n : Nat) (c : Condition), sizeOf c ≤ n →
      Condition.wellFormed c = true →
      (∀ p : ParameterEntry, ParamOccurs p c → preg p.id = some p) →
      (∀ (T : NumT) (f : T.carrier → T.carrier), FuncOccurs T f c →
        freg T (fname T f) = some f) →
      ConditionXMLConverter.fromDocument preg freg
        (ConditionXMLConverter.toDocument fname c) = some c := by
  intro n
  induction n with
  | zero => intro c hle; exfalso; cases c <;> simp_arith at hle
  | succ m ih =>
    intro c hle hwf hp hf
    cases c with
    | orCond cs =>
      simp only [Condition.wellFormed, Bool.and_eq_true] at hwf
      have hne : cs.isEmpty = false := by
        cases he : cs.isEmpty with
        | false => rfl
        | true => rw [he] at hwf; simp at hwf
      have hlist : ConditionXMLConverter.fromDocumentList preg freg
          (ConditionXMLConverter.toDocumentList fname cs) = some cs := by
        refine fromDocumentList_roundtrip preg freg fname cs ?_
        intro d hd
        have h1 := List.sizeOf_lt_of_mem hd
        have h2 : sizeOf (Condition.orCond cs) = 1 + sizeOf cs := by simp
        exact ih d (by omega) (wellFormedList_mem hwf.2 hd)
          (fun p hop => hp p (ParamOccurs.inOr hd hop))
          (fun T f hfo => hf T f (FuncOccurs.inOr hd hfo))
      simp only [ConditionXMLConverter.toDocument,
        ConditionXMLConverter.fromDocument]
      simp [lookupAttr, List.find?, hlist, hne]
    | andCond cs =>
      simp only [Condition.wellFormed, Bool.and_eq_true] at hwf
      have hne : cs.isEmpty = false := by
        cases he : cs.isEmpty with
        | false => rfl
        | true => rw [he] at hwf; simp at hwf
      have hlist : ConditionXMLConverter.fromDocumentList preg freg
          (ConditionXMLConverter.toDocumentList fname cs) = some cs := by
        refine fromDocumentList_roundtrip preg freg fname cs ?_
        intro d hd
        have h1 := List.sizeOf_lt_of_mem hd
        have h2 : sizeOf (Condition.andCond cs) = 1 + sizeOf cs := by simp
        exact ih d (by omega) (wellFormedList_mem hwf.2 hd)
          (fun p hop => hp p (ParamOccurs.inAnd hd hop))
          (fun T f hfo => hf T f (FuncOccurs.inAnd hd hfo))
      simp only [ConditionXMLConverter.toDocument,
        ConditionXMLConverter.fromDocument]
      simp [lookupAttr, List.find?, hlist, hne]
    | equalsCond cs =>
      simp only [Condition.wellFormed, Bool.and_eq_true] at hwf
      have hne : cs.isEmpty = false := by
        cases he : cs.isEmpty with
        | false => rfl
        | true => rw [he] at hwf; simp at hwf
      have hlist : ConditionXMLConverter.fromDocumentList preg freg
          (ConditionXMLConverter.toDocumentList fname cs) = some cs := by
        refine fromDocumentList_roundtrip preg freg fname cs ?_
        intro d hd
        have h1 := List.sizeOf_lt_of_mem hd
        have h2 : sizeOf (Condition.equalsCond cs) = 1 + sizeOf cs := by simp
        exact ih d (by omega) (wellFormedList_mem hwf.2 hd)
          (fun p hop => hp p (ParamOccurs.inEquals hd hop))
          (fun T f hfo => hf T f (FuncOccurs.inEquals hd hfo))
      simp only [ConditionXMLConverter.toDocument,
        ConditionXMLConverter.fromDocument]
      simp [lookupAttr, List.find?, hlist, hne]
    | notCond c1 =>
      simp only [Condition.wellFormed] at hwf
      have h2 : sizeOf (Condition.notCond c1) = 1 + sizeOf c1 := by simp
      have hc1 : ConditionXMLConverter.fromDocument preg freg
          (ConditionXMLConverter.toDocument fname c1) = some c1 :=
        ih c1 (by omega) hwf (fun p hop => hp p (ParamOccurs.inNot hop))
          (fun T f hfo => hf T f (FuncOccurs.inNot hfo))
      simp only [ConditionXMLConverter.toDocument,
        ConditionXMLConverter.fromDocument]
      simp [lookupAttr, List.find?, ConditionXMLConverter.fromDocumentList,
        hc1]
    | stringCond p0 vals w =>
      have hpp : preg p0.id = some p0 := hp p0 ParamOccurs.inString
      simp only [ConditionXMLConverter.toDocument,
        ConditionXMLConverter.fromDocument]
      simp [lookupAttr, List.find?, ConditionXMLConverter.decodeParamPayload,
        hpp, boolAttr_decode, decodeValues_roundtrip vals]
    | numberCond T p0 f w =>
      have hpp : preg p0.id = some p0 := hp p0 ParamOccurs.inNumber
      cases f with
      | none =>
        cases T <;>
          simp [ConditionXMLConverter.toDocument,
            ConditionXMLConverter.fromDocument,
            ConditionXMLConverter.decodeNumT, NumT.typeName,
            ConditionXMLConverter.decodeParamPayload, lookupAttr,
            List.find?, hpp, boolAttr_decode]
      | some fn =>
        have hff : freg T (fname T fn) = some fn :=
          hf T fn FuncOccurs.inNumber
        cases T <;>
          simp [ConditionXMLConverter.toDocument,
            ConditionXMLConverter.fromDocument,
            ConditionXMLConverter.decodeNumT, NumT.typeName,
            ConditionXMLConverter.decodeParamPayload, lookupAttr,
            List.find?, hpp, boolAttr_decode, hff]
    | boolCond p0 w =>
      have hpp : preg p0.id = some p0 := hp p0 ParamOccurs.inBool
      simp only [ConditionXMLConverter.toDocument,
        ConditionXMLConverter.fromDocument]
      simp [lookupAttr, List.find?, ConditionXMLConverter.decodeParamPayload,
        hpp, boolAttr_decode]



/-- C7: deserializing the serialized form of a successfully constructed
condition tree, under registries that invert the parameter ids and the
transform-function tags occurring in the tree, reconstructs the tree
exactly: same variant (equal type attribute), same children in the same
order, and the same isConditionTrue result for every parameter state. -/
theorem condition_xml_roundtrip (preg : ParamRegistry) (fname : FuncNaming)
    (freg : FuncRegistry) (c : Condition)
    (hwf : Condition.wellFormed c = true)
    (hp : ∀ p : ParameterEntry, ParamOccurs p c → preg p.id = some p)
    (hf : ∀ (T : NumT) (f : T.carrier → T.carrier), FuncOccurs T f c →
      freg T (fname T f) = some f) :
    ConditionXMLConverter.fromDocument preg freg
      (ConditionXMLConverter.toDocument fname c) = some c ∧
    ∃ c2, ConditionXMLConverter.fromDocument preg freg
        (ConditionXMLConverter.toDocument fname c) = some c2 ∧
      c2.getTypeAttributeValue = c.getTypeAttributeValue ∧
      (∀ σ : PState, Condition.isConditionTrue σ c2 =
        Condition.isConditionTrue σ c) := by
  have h := roundtrip_aux preg fname freg (sizeOf c) c (le_refl _) hwf hp hf
  exact ⟨h, c, h, rfl, fun σ => rfl⟩

/-- C7 witness: the concrete tree rtTree round trips under the concrete
registries. -/
theorem condition_xml_roundtrip_witness :
    ConditionXMLConverter.fromDocument rtPreg rtFreg
      (ConditionXMLConverter.toDocument rtFname rtTree) = some rtTree :=
  (condition_xml_roundtrip rtPreg rtFname rtFreg rtTree (by decide)
    (by
      intro p hop
      simp only [rtTree] at hop
      cases hop with
      | inAnd hd hocc =>
        simp only [List.mem_cons, List.not_mem_nil, or_false] at hd
        rcases hd with rfl | rfl | rfl
        · cases hocc
          decide
        · cases hocc with
          | inNot h1 =>
            cases h1
            decide
        · cases hocc
          decide)
    (by
      intro T f hfo
      simp only [rtTree] at hfo
      cases hfo with
      | inAnd hd hfo2 =>
        simp only [List.mem_cons, List.not_mem_nil, or_false] at hd
        rcases hd with rfl | rfl | rfl
        · cases hfo2
        · cases hfo2 with
          | inNot h1 => cases h1
        · cases hfo2)).1

end Trilinos
